import Mathlib

/-!
Shallow embedding of the qpAdm GUI analysis pipeline (src/gui.py).

The pipeline validates a run request (R environment flag, dataset prefix,
target, left and right population lists), invokes the qpadm estimator,
derives a z-score column on the weights table, composes a pie chart plus a
formatted statistics block, and pivots the weights into a wide CSV export
table.  Floating-point numbers of the source are embedded as rationals;
pandas DataFrames become lists of rows; the mutable `weights` DataFrame
binding is modelled by a small heap of DataFrames addressed by index.
-/

namespace QpAdmGui

/-- A row of the qpadm `weights` table.  The parser produces rows without a
`zscore` column (`zscore = none`); the derivation step fills it in. -/
structure WRow where
  target : String
  left   : String
  weight : ℚ
  se     : ℚ
  zscore : Option ℚ
deriving DecidableEq, Repr

/-- The first row of the qpadm `rankdrop` table: p-value and chi-square. -/
structure FitRow where
  p     : ℚ
  chisq : ℚ
deriving DecidableEq, Repr

/-- gui.py line 155: `row['weight'] / row['se'] if row['se'] != 0 else 0`. -/
def zscoreOf (r : WRow) : ℚ :=
  if r.se ≠ 0 then r.weight / r.se else 0

/-- Row-wise effect of the zscore `apply` lambda: set the `zscore` field,
leave every other field alone. -/
def deriveRow (r : WRow) : WRow :=
  { r with zscore := some (zscoreOf r) }

/-- gui.py line 155: the Series computed by
`weights.apply(lambda row: ..., axis=1)` written into column `'zscore'`. -/
def addZscoreColumn (df : List WRow) : List WRow :=
  df.map deriveRow

/-- A heap of DataFrames.  Python names such as `weights` hold references
into this heap; `weights['zscore'] = ...` updates the heap cell in place. -/
abbrev Heap := List (List WRow)

/-- gui.py line 155 as a heap operation: the column assignment
`weights['zscore'] = weights.apply(...)` overwrites the DataFrame stored at
the reference held by `weights` and returns the same reference (pandas
column assignment mutates; it does not allocate a new DataFrame). -/
def zscoreAssign (h : Heap) (i : Nat) : Heap × Nat :=
  (h.set i (addZscoreColumn (h.getD i [])), i)

/-- Code-point lexicographic comparison of character lists, the string
order by which Python (and hence pandas) sorts labels. -/
def charListLt : List Char → List Char → Bool
  | _, [] => false
  | [], _ :: _ => true
  | a :: as, b :: bs =>
    if a < b then true
    else if b < a then false
    else charListLt as bs

/-- Code-point lexicographic comparison of strings. -/
def strLt (a b : String) : Bool :=
  charListLt a.data b.data

/-- Insert a string into a sorted duplicate-free list, keeping it sorted and
duplicate-free.  pandas `pivot_table` sorts its index and column labels and
collapses duplicates; this models that label set. -/
def insertSorted (x : String) : List String → List String
  | [] => [x]
  | y :: ys =>
    if x = y then y :: ys
    else if strLt x y then x :: y :: ys
    else y :: insertSorted x ys

/-- The sorted list of distinct labels occurring in `l`, as produced by
pandas `pivot_table` for its index and columns. -/
def sortDedup (l : List String) : List String :=
  l.foldr insertSorted []

/-- gui.py line 159: `plot_data = weights[weights['weight'] > 0]`. -/
def plot_data (weights : List WRow) : List WRow :=
  weights.filter (fun r => 0 < r.weight)

/-- Content of the pie chart (gui.py lines 160–164): the proportions are the
`weight` column of `plot_data` and the labels its `left` column. -/
structure ChartSpec where
  labels : List String
  values : List ℚ
deriving DecidableEq, Repr

/-- gui.py lines 160–164: `ax.pie(plot_data['weight'], labels=plot_data['left'], ...)`. -/
def composeChart (weights : List WRow) : ChartSpec :=
  { labels := (plot_data weights).map (·.left)
    values := (plot_data weights).map (·.weight) }

/-- One line of the formatted statistics block.  Numeric lines carry the
value printed and the number of decimal places of the format string used. -/
inductive StatsLine where
  /-- the P-Value line of gui.py line 169, format `.4f` -/
  | pvalue (value : ℚ) (decimals : Nat)
  /-- the chi-square line of gui.py line 170, format `.4f` -/
  | chisq (value : ℚ) (decimals : Nat)
  /-- a dashed separator line -/
  | separator
  /-- the Source / SE / Z-score column-header line -/
  | columnHeader
  /-- one per-source line of gui.py line 177: name, se as a percentage with
  format `6.2f`, z-score with format `7.2f` -/
  | srcLine (source : String) (sePercent : ℚ) (seDecimals : Nat)
      (zscore : ℚ) (zDecimals : Nat)
deriving DecidableEq, Repr

/-- The row line built for a derived weights row in the `weights.iterrows()`
loop (gui.py lines 175–177): `se_percent = row['se'] * 100`, printed with 2
decimals, and the z-score printed with 2 decimals. -/
def srcLineOf (r : WRow) : StatsLine :=
  .srcLine r.left (r.se * 100) 2 (r.zscore.getD 0) 2

/-- gui.py lines 168–177: the statistics block, line by line. -/
def statsBlock (pValue x2 : ℚ) (weights : List WRow) : List StatsLine :=
  .pvalue pValue 4 :: .chisq x2 4 :: .separator :: .columnHeader :: .separator
    :: weights.map srcLineOf

/-- Recognizer for per-source row lines of the statistics block. -/
def StatsLine.isSrcLine : StatsLine → Bool
  | .srcLine _ _ _ _ _ => true
  | _ => false

/-- A cell of the export table: the target name, a number, or NaN (a pivot
cell with no contributing row). -/
inductive Cell where
  | str (s : String)
  | num (q : ℚ)
  | na
deriving DecidableEq, Repr

/-- The export table: a header row of column names and data rows of cells. -/
structure ExportTable where
  header : List String
  rows   : List (List Cell)
deriving DecidableEq, Repr

/-- The values contributing to the pivot cell at `(target, left)`:
`f` over every weights row with that target and that source name. -/
def cellValues (weights : List WRow) (t s : String) (f : WRow → ℚ) : List ℚ :=
  (weights.filter (fun r => r.target = t ∧ r.left = s)).map f

/-- pandas `pivot_table` aggregation: default `aggfunc='mean'`.  An empty
group yields NaN. -/
def pivotCell (weights : List WRow) (t s : String) (f : WRow → ℚ) : Cell :=
  match cellValues weights t s f with
  | [] => .na
  | vs => .num (vs.sum / vs.length)

/-- gui.py lines 191–198 (`convert_df_to_csv`): three pivot tables
(`weight`, `se`, `zscore`, suffixed accordingly), concatenated column-wise,
`reset_index` putting `target` first, then the scalar `p-value` and `x2`
columns appended.  `pivot_table` sorts index and column labels and
aggregates duplicate `(target, left)` pairs by their mean. -/
def convert_df_to_csv (weights : List WRow) (rankdropFirst : FitRow) : ExportTable :=
  let lefts := sortDedup (weights.map (·.left))
  let targets := sortDedup (weights.map (·.target))
  { header := "target" :: (lefts.map (· ++ "_weight") ++ lefts.map (· ++ "_se")
      ++ lefts.map (· ++ "_zscore") ++ ["p-value", "x2"])
    rows := targets.map (fun t =>
      Cell.str t :: (lefts.map (fun s => pivotCell weights t s (·.weight))
        ++ lefts.map (fun s => pivotCell weights t s (·.se))
        ++ lefts.map (fun s => pivotCell weights t s (fun r => r.zscore.getD 0))
        ++ [Cell.num rankdropFirst.p, Cell.num rankdropFirst.chisq])) }

/-- Serialization of gui.py line 198, `df.to_csv(index=False)`: a header
line then one comma-separated line per data row, given a rendering of cells
to text. -/
def csvLines (t : ExportTable) (render : Cell → String) : List String :=
  String.intercalate "," t.header :: t.rows.map (fun r => String.intercalate "," (r.map render))

/-- The structured response of the qpadm estimator as consumed by the
pipeline: `result['weights']` (None when no feasible model exists) and the
rows of `result['rankdrop']`.  Weights rows come back without a `zscore`
column. -/
structure RawResult where
  weights  : Option (List WRow)
  rankdrop : List FitRow

/-- An estimator: given prefix, target, left and right population lists,
produce a raw result.  Injected so that theorems can quantify over it. -/
abbrev Estimator := String → String → List String → List String → RawResult

/-- Outcome of pressing "Start qpAdm Analysis" (gui.py lines 120–211). -/
inductive Outcome where
  /-- line 122: "R environment could not be initialized." -/
  | uninitError
  /-- line 124: "Prefix path not defined in `config.txt`." -/
  | configError
  /-- line 126: "ERROR: Please define the Target, Left list, and Right list." -/
  | validationError
  /-- line 148: "Analysis failed. No feasible model was found." -/
  | infeasible
  /-- lines 150–207: chart, statistics block and CSV export are produced. -/
  | success (chart : ChartSpec) (stats : List StatsLine) (csv : ExportTable)
  /-- lines 209–211: the `except` handler ("A critical error occurred"). -/
  | criticalError
deriving DecidableEq

/-- Python truthiness of `prefix_path` (gui.py line 123, `not prefix_path`):
falsy when `config.get('prefix')` returned None or the empty string. -/
def prefixMissing : Option String → Bool
  | none => true
  | some p => p = ""

/-- gui.py lines 120–207: the button handler.  Guards in source order:
R-environment flag, prefix, then target/left/right emptiness; only then is
the estimator invoked.  `rankdrop['p'].iloc[0]` on an empty rankdrop table
raises, landing in the `except` handler. -/
def runAnalysis (rEnvOk : Bool) (prefixPath : Option String) (target : String)
    (leftPops rightPops : List String) (est : Estimator) : Outcome :=
  if !rEnvOk then .uninitError
  else if prefixMissing prefixPath then .configError
  else if target = "" || leftPops.isEmpty || rightPops.isEmpty then .validationError
  else
    let raw := est (prefixPath.getD "") target leftPops rightPops
    match raw.weights with
    | none => .infeasible
    | some wrows =>
      match raw.rankdrop with
      | [] => .criticalError
      | fit :: _ =>
        let derived := addZscoreColumn wrows
        .success (composeChart derived) (statsBlock fit.p fit.chisq derived)
          (convert_df_to_csv derived fit)

/-- Whether an outcome is a rejection that happens before the estimator is
invoked (one of the three guard errors of gui.py lines 121–126). -/
def Outcome.rejectedBeforeRun : Outcome → Bool
  | .uninitError => true
  | .configError => true
  | .validationError => true
  | _ => false

/-- The session-state flag `r_env_setup_minimal` (gui.py lines 9–19): the
initialization block runs only when the key is absent (`'r_env_setup_minimal'
not in st.session_state`), so the first script run stores the result of the
one R-library load attempt and later runs leave it untouched. -/
def initFlagStep (state : Option Bool) (initResult : Bool) : Option Bool :=
  match state with
  | none => some initResult
  | some b => some b

/-- The session flag after `n` script runs, starting from an absent key. -/
def envFlagAfter (initResult : Bool) : Nat → Option Bool
  | 0 => none
  | n + 1 => initFlagStep (envFlagAfter initResult n) initResult

/-- A run attempt during script run `n + 1` (so after at least one execution
of the top-of-script initialization block):
`st.session_state.get('r_env_setup_minimal')` is falsy when absent. -/
def attemptAt (initResult : Bool) (n : Nat) (prefixPath : Option String)
    (target : String) (leftPops rightPops : List String) (est : Estimator) : Outcome :=
  runAnalysis ((envFlagAfter initResult (n + 1)).getD false) prefixPath target
    leftPops rightPops est

/-- gui.py lines 137/139: `pop.replace('"', '\\"')` — each double-quote
character is replaced by backslash-quote; no other character is touched. -/
def escapePop : List Char → List Char
  | [] => []
  | c :: cs => if c = '"' then '\\' :: '"' :: escapePop cs else c :: escapePop cs

/-- The quoted R string literal built for one population name:
`f'"{pop.replace('"', '\\"')}"'`. -/
def rStringLit (name : List Char) : List Char :=
  '"' :: (escapePop name ++ ['"'])

/-- The R lexer scanning the body of a double-quoted string literal.
`\"` yields a quote, `\\` a backslash; an unterminated literal or any other
escape sequence is a parse failure (R rejects unrecognized escapes, and the
recognized ones such as `\n` would not preserve the name anyway).  Returns
the decoded characters and the input remaining after the closing quote. -/
def rScanBody : List Char → Option (List Char × List Char)
  | [] => none
  | c :: rest =>
    if c = '"' then some ([], rest)
    else if c = '\\' then
      match rest with
      | [] => none
      | c2 :: rest2 =>
        if c2 = '"' ∨ c2 = '\\' then
          match rScanBody rest2 with
          | none => none
          | some (v, r) => some (c2 :: v, r)
        else none
    else
      match rScanBody rest with
      | none => none
      | some (v, r) => some (c :: v, r)

/-- Lex one double-quoted R string literal at the head of the input. -/
def rLexString : List Char → Option (List Char × List Char)
  | '"' :: body => rScanBody body
  | _ => none

/-- Python `str.strip()` on characters: drop whitespace from both ends. -/
def pyStrip (l : List Char) : List Char :=
  ((l.dropWhile Char.isWhitespace).reverse.dropWhile Char.isWhitespace).reverse

/-- Python `str.split(',')`: split at every comma; always at least one
piece (`''.split(',') == ['']`). -/
def splitComma : List Char → List (List Char)
  | [] => [[]]
  | c :: cs =>
    if c = ',' then [] :: splitComma cs
    else
      match splitComma cs with
      | [] => [[c]]
      | p :: ps => (c :: p) :: ps

/-- gui.py line 29: `[p.strip() for p in pops_str.strip().split(',')]`. -/
def parsePops (popsStr : List Char) : List (List Char) :=
  (splitComma (pyStrip popsStr)).map pyStrip

/-- Python `line.split(':', 1)` when a colon is present: the part before
the first colon and the part after it; `none` when there is no colon. -/
def splitFirstColon : List Char → Option (List Char × List Char)
  | [] => none
  | c :: cs =>
    if c = ':' then some ([], cs)
    else
      match splitFirstColon cs with
      | none => none
      | some (a, b) => some (c :: a, b)

/-- One iteration of the `load_predefined_lists` loop (gui.py lines 26–30):
strip the line; skip it unless it is non-empty and contains a colon;
otherwise map the stripped name to the parsed population list. -/
def parseListLine (line : List Char) : Option (List Char × List (List Char)) :=
  let l := pyStrip line
  if l = [] then none
  else
    match splitFirstColon l with
    | none => none
    | some (namePart, popsPart) => some (pyStrip namePart, parsePops popsPart)

/-- A one-DataFrame heap holding the parsed weights table of end-to-end
scenario A, before derivation. -/
def scenarioHeap : Heap :=
  [[⟨"Target1", "A", 7, 1, none⟩, ⟨"Target1", "B", 3, 2, none⟩]]

/-- An estimator double returning the feasible tables of end-to-end
scenario A (values scaled to integers). -/
def sampleEstimator : Estimator := fun _ _ _ _ =>
  { weights := some [⟨"Target1", "A", 7, 1, none⟩, ⟨"Target1", "B", 3, 2, none⟩]
    rankdrop := [⟨1, 3⟩] }

/-- An estimator double signalling infeasibility (null weights). -/
def nullEstimator : Estimator := fun _ _ _ _ =>
  { weights := none, rankdrop := [⟨1, 3⟩] }

/-- A derived weights table repeating the (target, source) pair (T, A). -/
def dupRows : List WRow :=
  [⟨"T", "A", 1, 2, some 3⟩, ⟨"T", "A", 3, 4, some 5⟩]

/-! ## Theorems -/

theorem charListLt_iff_lex (as bs : List Char) :
    charListLt as bs = true ↔ List.Lex (· < ·) as bs := by
  induction as generalizing bs with
  | nil =>
    cases bs with
    | nil =>
      constructor
      · intro h; exact absurd h (by simp [charListLt])
      · intro h; cases h
    | cons b bs2 =>
      constructor
      · intro _; exact List.Lex.nil
      · intro _; rfl
  | cons a as2 ih =>
    cases bs with
    | nil =>
      constructor
      · intro h; exact absurd h (by simp [charListLt])
      · intro h; cases h
    | cons b bs2 =>
      by_cases hab : a < b
      · constructor
        · intro _; exact List.Lex.rel hab
        · intro _; simp [charListLt, hab]
      · by_cases hba : b < a
        · constructor
          · intro h
            rw [show charListLt (a :: as2) (b :: bs2) = false by
              simp [charListLt, hab, hba]] at h
            exact absurd h (by simp)
          · intro h
            cases h with
            | cons h2 => exact absurd hba (lt_irrefl a)
            | rel h2 => exact absurd h2 hab
        · have heq : a = b := le_antisymm (not_lt.mp hba) (not_lt.mp hab)
          subst heq
          constructor
          · intro h
            rw [show charListLt (a :: as2) (a :: bs2) = charListLt as2 bs2 by
              simp [charListLt, hab, hba]] at h
            exact List.Lex.cons ((ih bs2).mp h)
          · intro h
            have h2 : charListLt as2 bs2 = true := by
              cases h with
              | cons h3 => exact (ih bs2).mpr h3
              | rel h3 => exact absurd h3 hab
            simp [charListLt, hab, hba, h2]

theorem string_lt_iff_lex (s t : String) :
    s < t ↔ List.Lex (· < ·) s.data t.data := String.lt_iff_toList_lt

theorem strLt_iff_lt (a b : String) : strLt a b = true ↔ a < b :=
  (charListLt_iff_lex a.data b.data).trans (string_lt_iff_lex a b).symm

theorem mem_insertSorted (a x : String) (l : List String) :
    a ∈ insertSorted x l ↔ a = x ∨ a ∈ l := by
  induction l with
  | nil => simp [insertSorted]
  | cons y ys ih =>
    simp only [insertSorted]
    split
    · next h => subst h; rw [List.mem_cons]; tauto
    · split
      · rw [List.mem_cons]
      · rw [List.mem_cons, List.mem_cons, ih]; tauto

theorem mem_sortDedup (a : String) (l : List String) :
    a ∈ sortDedup l ↔ a ∈ l := by
  induction l with
  | nil => simp [sortDedup]
  | cons x xs ih =>
    simp only [sortDedup, List.foldr_cons, mem_insertSorted, List.mem_cons]
    rw [show List.foldr insertSorted [] xs = sortDedup xs from rfl, ih]

theorem sorted_insertSorted (x : String) (l : List String)
    (hl : l.Sorted (· < ·)) : (insertSorted x l).Sorted (· < ·) := by
  induction l with
  | nil => simp [insertSorted]
  | cons y ys ih =>
    rw [List.sorted_cons] at hl
    simp only [insertSorted]
    split
    · next h =>
      subst h
      rw [List.sorted_cons]
      exact hl
    · next hxy =>
      split
      · next hb1 =>
        have hlt : x < y := (strLt_iff_lt x y).mp hb1
        rw [List.sorted_cons]
        refine ⟨?_, ?_⟩
        · intro b hb
          rcases List.mem_cons.mp hb with hb | hb
          · exact hb ▸ hlt
          · exact lt_trans hlt (hl.1 b hb)
        · rw [List.sorted_cons]
          exact hl
      · next hb1 =>
        have hlt : ¬ x < y := fun hcon => hb1 ((strLt_iff_lt x y).mpr hcon)
        have hyx : y < x := lt_of_le_of_ne (not_lt.mp hlt) (Ne.symm hxy)
        rw [List.sorted_cons]
        refine ⟨?_, ih hl.2⟩
        intro b hb
        rcases (mem_insertSorted b x ys).mp hb with hb | hb
        · exact hb ▸ hyx
        · exact hl.1 b hb

theorem sorted_sortDedup (l : List String) :
    (sortDedup l).Sorted (· < ·) := by
  induction l with
  | nil => simp [sortDedup]
  | cons x xs ih => exact sorted_insertSorted x _ ih

theorem nodup_sortDedup (l : List String) : (sortDedup l).Nodup :=
  (sorted_sortDedup l).nodup

theorem toFinset_sortDedup (l : List String) :
    (sortDedup l).toFinset = l.toFinset := by
  ext a
  simp [mem_sortDedup]

theorem length_sortDedup (l : List String) :
    (sortDedup l).length = l.toFinset.card := by
  rw [← toFinset_sortDedup, List.toFinset_card_of_nodup (nodup_sortDedup l)]

/-- C1: for every weights row, the derived z-score is 0 when the row's se
is 0 and exactly weight divided by se otherwise, and the derivation step
changes no other field of the row. -/
theorem zscore_derivation_rowwise (r : WRow) :
    (deriveRow r).zscore = some (if r.se = 0 then 0 else r.weight / r.se)
    ∧ (deriveRow r).target = r.target
    ∧ (deriveRow r).left = r.left
    ∧ (deriveRow r).weight = r.weight
    ∧ (deriveRow r).se = r.se := by
  refine ⟨?_, rfl, rfl, rfl, rfl⟩
  simp only [deriveRow, zscoreOf]
  by_cases h : r.se = 0 <;> simp [h]

/-- C8 counterexample: on a concrete parsed weights table, the zscore
assignment overwrites the DataFrame stored at the reference the parser
returned (the rows as received are not unchanged) and hands back the very
same reference (no new collection is allocated). -/
theorem zscore_assignment_mutates_input :
    (zscoreAssign scenarioHeap 0).1.getD 0 [] ≠ scenarioHeap.getD 0 []
    ∧ (zscoreAssign scenarioHeap 0).2 = 0
    ∧ (zscoreAssign scenarioHeap 0).1.length = scenarioHeap.length := by
  decide

/-- C8 amended: the zscore assignment updates the weights DataFrame in
place — the result is the same reference, the stored table becomes the
row-wise derived table, and each row keeps its target, left, weight and se
fields, only gaining the zscore field. -/
theorem zscore_assignment_in_place (h : Heap) (i : Nat) :
    (zscoreAssign h i).2 = i
    ∧ (zscoreAssign h i).1.getD i [] = (h.getD i []).map deriveRow
    ∧ ∀ r ∈ h.getD i [],
        (deriveRow r).target = r.target ∧ (deriveRow r).left = r.left
        ∧ (deriveRow r).weight = r.weight ∧ (deriveRow r).se = r.se
        ∧ (deriveRow r).zscore = some (zscoreOf r) := by
  refine ⟨rfl, ?_, fun r _ => ⟨rfl, rfl, rfl, rfl, rfl⟩⟩
  simp only [zscoreAssign, List.getD_eq_getElem?_getD, List.getElem?_set]
  by_cases hi : i < h.length
  · simp [hi, addZscoreColumn]
  · simp [hi, List.getElem?_eq_none (Nat.le_of_not_lt hi)]

theorem runAnalysis_env_failed (prefixPath : Option String) (target : String)
    (l r : List String) (est : Estimator) :
    runAnalysis false prefixPath target l r est = .uninitError := rfl

theorem runAnalysis_configError (prefixPath : Option String) (target : String)
    (l r : List String) (est : Estimator) (hp : prefixMissing prefixPath = true) :
    runAnalysis true prefixPath target l r est = .configError := by
  unfold runAnalysis
  rw [if_neg (by simp), if_pos (by simp [hp])]

theorem runAnalysis_validationError (prefixPath : Option String) (target : String)
    (l r : List String) (est : Estimator) (hp : prefixMissing prefixPath = false)
    (h : target = "" ∨ l = [] ∨ r = []) :
    runAnalysis true prefixPath target l r est = .validationError := by
  unfold runAnalysis
  rw [if_neg (by simp), if_neg (by simp [hp]), if_pos ?_]
  rcases h with h | h | h <;> simp [h]

theorem runAnalysis_guards_passed (prefixPath : Option String) (target : String)
    (l r : List String) (est : Estimator) (hp : prefixMissing prefixPath = false)
    (ht : target ≠ "") (hl : l ≠ []) (hr : r ≠ []) :
    runAnalysis true prefixPath target l r est
      = match (est (prefixPath.getD "") target l r).weights with
        | none => .infeasible
        | some wrows =>
          match (est (prefixPath.getD "") target l r).rankdrop with
          | [] => .criticalError
          | fit :: _ =>
            .success (composeChart (addZscoreColumn wrows))
              (statsBlock fit.p fit.chisq (addZscoreColumn wrows))
              (convert_df_to_csv (addZscoreColumn wrows) fit) := by
  unfold runAnalysis
  rw [if_neg (by simp), if_neg (by simp [hp]), if_neg (by simp [ht, hl, hr])]

theorem runAnalysis_not_rejected (prefixPath : Option String) (target : String)
    (l r : List String) (est : Estimator) (hp : prefixMissing prefixPath = false)
    (ht : target ≠ "") (hl : l ≠ []) (hr : r ≠ []) :
    (runAnalysis true prefixPath target l r est).rejectedBeforeRun = false := by
  rw [runAnalysis_guards_passed prefixPath target l r est hp ht hl hr]
  cases (est (prefixPath.getD "") target l r).weights with
  | none => rfl
  | some wrows =>
    cases (est (prefixPath.getD "") target l r).rankdrop with
    | nil => rfl
    | cons fit rest => rfl

theorem runAnalysis_rejected_est_independent (rEnvOk : Bool)
    (prefixPath : Option String) (target : String) (l r : List String)
    (est est2 : Estimator)
    (h : (runAnalysis rEnvOk prefixPath target l r est).rejectedBeforeRun = true) :
    runAnalysis rEnvOk prefixPath target l r est
      = runAnalysis rEnvOk prefixPath target l r est2 := by
  cases rEnvOk with
  | false =>
    rw [runAnalysis_env_failed, runAnalysis_env_failed]
  | true =>
    by_cases hp : prefixMissing prefixPath = true
    · rw [runAnalysis_configError prefixPath target l r est hp,
        runAnalysis_configError prefixPath target l r est2 hp]
    · have hp2 : prefixMissing prefixPath = false := by
        cases hpm : prefixMissing prefixPath
        · rfl
        · exact absurd hpm hp
      by_cases hv : target = "" ∨ l = [] ∨ r = []
      · rw [runAnalysis_validationError prefixPath target l r est hp2 hv,
          runAnalysis_validationError prefixPath target l r est2 hp2 hv]
      · push_neg at hv
        obtain ⟨ht, hl, hr⟩ := hv
        rw [runAnalysis_not_rejected prefixPath target l r est hp2 ht hl hr] at h
        exact absurd h (by simp)

/-- C4 counterexample: with the R environment flag down but the dataset
handle, target and both lists all present, the run is still rejected before
any estimator invocation, so rejection is not equivalent to one of the four
missing-field conditions. -/
theorem run_rejection_not_only_validation :
    (runAnalysis false (some "dataset") "Target1" ["A"] ["X"]
        sampleEstimator).rejectedBeforeRun = true
    ∧ ¬ (prefixMissing (some "dataset") = true ∨ "Target1" = ""
          ∨ (["A"] : List String) = [] ∨ (["X"] : List String) = []) := by
  decide

/-- C4 amended: provided the estimator runtime environment initialized
successfully, a run request is rejected before any estimator invocation iff
the dataset handle is absent, the target is empty, the left list is empty or
the right list is empty; any rejected run never contacts the estimator (the
outcome is the same for every estimator); with all four present the run
proceeds regardless of list length. -/
theorem run_rejection_iff_of_initialized (rEnvOk : Bool)
    (prefixPath : Option String) (target : String) (l r : List String)
    (est est2 : Estimator) (hEnv : rEnvOk = true) :
    ((runAnalysis rEnvOk prefixPath target l r est).rejectedBeforeRun = true
      ↔ (prefixMissing prefixPath = true ∨ target = "" ∨ l = [] ∨ r = []))
    ∧ ((runAnalysis rEnvOk prefixPath target l r est).rejectedBeforeRun = true →
        runAnalysis rEnvOk prefixPath target l r est
          = runAnalysis rEnvOk prefixPath target l r est2) := by
  subst hEnv
  refine ⟨⟨?_, ?_⟩,
    runAnalysis_rejected_est_independent true prefixPath target l r est est2⟩
  · intro h
    by_contra hc
    push_neg at hc
    obtain ⟨hp, ht, hl, hr⟩ := hc
    have hp2 : prefixMissing prefixPath = false := by simpa using hp
    rw [runAnalysis_not_rejected prefixPath target l r est hp2 ht hl hr] at h
    exact absurd h (by simp)
  · intro h
    by_cases hp : prefixMissing prefixPath = true
    · rw [runAnalysis_configError prefixPath target l r est hp]; rfl
    · have hp2 : prefixMissing prefixPath = false := by simpa using hp
      have h2 : target = "" ∨ l = [] ∨ r = [] := by
        rcases h with h | h
        · exact absurd h hp
        · exact h
      rw [runAnalysis_validationError prefixPath target l r est hp2 h2]; rfl

/-- C4 witness: the amended theorem applied at a concrete request with an
empty target and the environment flag up. -/
theorem run_rejection_iff_of_initialized_witness :
    (((runAnalysis true (some "dataset") "" ["A"] ["X"]
          sampleEstimator).rejectedBeforeRun = true
      ↔ (prefixMissing (some "dataset") = true ∨ "" = ""
          ∨ (["A"] : List String) = [] ∨ (["X"] : List String) = []))
    ∧ ((runAnalysis true (some "dataset") "" ["A"] ["X"]
          sampleEstimator).rejectedBeforeRun = true →
        runAnalysis true (some "dataset") "" ["A"] ["X"] sampleEstimator
          = runAnalysis true (some "dataset") "" ["A"] ["X"] nullEstimator)) :=
  run_rejection_iff_of_initialized true (some "dataset") "" ["A"] ["X"]
    sampleEstimator nullEstimator rfl

/-- C5: when the estimator returns the distinguished empty weights result,
the run outcome is exactly Infeasible — in particular no success outcome
carrying a chart, statistics block or export is produced. -/
theorem infeasible_on_null_weights (prefixPath : Option String)
    (target : String) (l r : List String) (est : Estimator)
    (hp : prefixMissing prefixPath = false) (ht : target ≠ "")
    (hl : l ≠ []) (hr : r ≠ [])
    (hw : (est (prefixPath.getD "") target l r).weights = none) :
    runAnalysis true prefixPath target l r est = .infeasible
    ∧ ∀ chart stats csv,
        runAnalysis true prefixPath target l r est ≠ .success chart stats csv := by
  have h2 : runAnalysis true prefixPath target l r est = .infeasible := by
    rw [runAnalysis_guards_passed prefixPath target l r est hp ht hl hr, hw]
  refine ⟨h2, fun chart stats csv hcon => ?_⟩
  rw [h2] at hcon
  exact Outcome.noConfusion hcon

/-- C5 witness: the infeasibility theorem applied to a concrete run whose
estimator returns null weights. -/
theorem infeasible_on_null_weights_witness :
    runAnalysis true (some "dataset") "Target1" ["A"] ["X"] nullEstimator
      = .infeasible :=
  (infeasible_on_null_weights (some "dataset") "Target1" ["A"] ["X"]
    nullEstimator rfl (by decide) (by decide) (by decide) rfl).1

theorem envFlagAfter_succ_eq (initResult : Bool) (n : Nat) :
    envFlagAfter initResult (n + 1) = some initResult := by
  induction n with
  | zero => rfl
  | succ k ih =>
    show initFlagStep (envFlagAfter initResult (k + 1)) initResult = some initResult
    rw [ih]
    rfl

/-- C6: if the R-environment initialization failed, then after every number
of script reruns the session flag is still the stored failure (never
re-initialized), and every run attempt is rejected with the uninitialized
outcome without the estimator being contacted. -/
theorem uninitialized_fails_forever (initResult : Bool) (n : Nat)
    (prefixPath : Option String) (target : String) (l r : List String)
    (est est2 : Estimator) (h : initResult = false) :
    envFlagAfter initResult (n + 1) = some false
    ∧ attemptAt initResult n prefixPath target l r est = .uninitError
    ∧ attemptAt initResult n prefixPath target l r est
        = attemptAt initResult n prefixPath target l r est2 := by
  subst h
  have hf := envFlagAfter_succ_eq false n
  refine ⟨hf, ?_, ?_⟩
  · unfold attemptAt
    rw [hf]
    exact runAnalysis_env_failed prefixPath target l r est
  · unfold attemptAt
    rw [hf]
    show runAnalysis false prefixPath target l r est
      = runAnalysis false prefixPath target l r est2
    rw [runAnalysis_env_failed prefixPath target l r est,
      runAnalysis_env_failed prefixPath target l r est2]

/-- C6 witness: the permanent-failure theorem applied at the third script
rerun with two different estimators. -/
theorem uninitialized_fails_forever_witness :
    envFlagAfter false 3 = some false
    ∧ attemptAt false 2 (some "dataset") "Target1" ["A"] ["X"] sampleEstimator
        = .uninitError
    ∧ attemptAt false 2 (some "dataset") "Target1" ["A"] ["X"] sampleEstimator
        = attemptAt false 2 (some "dataset") "Target1" ["A"] ["X"] nullEstimator :=
  uninitialized_fails_forever false 2 (some "dataset") "Target1" ["A"] ["X"]
    sampleEstimator nullEstimator rfl

/-- C3: the proportion chart's input set is exactly the rows with strictly
positive weight; the statistics block opens with the p-value line (4
decimals) and the chi-square line (4 decimals) and then lists one line per
row of the weights table regardless of weight sign, each showing source
name, standard error as a percentage with 2 decimals and z-score with 2
decimals. -/
theorem summary_chart_and_stats (weights : List WRow) (pValue x2 : ℚ) :
    (∀ s : WRow, s ∈ plot_data weights ↔ s ∈ weights ∧ 0 < s.weight)
    ∧ (composeChart weights).labels = (plot_data weights).map (·.left)
    ∧ (composeChart weights).values = (plot_data weights).map (·.weight)
    ∧ (statsBlock pValue x2 weights).get? 0 = some (.pvalue pValue 4)
    ∧ (statsBlock pValue x2 weights).get? 1 = some (.chisq x2 4)
    ∧ (statsBlock pValue x2 weights).filter (·.isSrcLine) = weights.map srcLineOf
    ∧ ∀ s ∈ weights,
        srcLineOf s = .srcLine s.left (s.se * 100) 2 (s.zscore.getD 0) 2 := by
  refine ⟨?_, rfl, rfl, rfl, rfl, ?_, fun s _ => rfl⟩
  · intro s
    simp [plot_data, List.mem_filter]
  · show List.filter _ (_ :: _ :: _ :: _ :: _ :: weights.map srcLineOf)
        = weights.map srcLineOf
    simp only [List.filter_cons]
    norm_num [StatsLine.isSrcLine]
    intro a _
    rfl

theorem rScanBody_quote (rest : List Char) :
    rScanBody ('"' :: rest) = some ([], rest) := by
  rw [rScanBody.eq_def]
  simp

theorem rScanBody_escaped_quote (rest : List Char) :
    rScanBody ('\\' :: '"' :: rest)
      = match rScanBody rest with
        | none => none
        | some (v, r) => some ('"' :: v, r) := by
  rw [rScanBody.eq_def]
  simp

theorem rScanBody_plain (c : Char) (rest : List Char) (hq : c ≠ '"')
    (hb : c ≠ '\\') :
    rScanBody (c :: rest)
      = match rScanBody rest with
        | none => none
        | some (v, r) => some (c :: v, r) := by
  rw [rScanBody.eq_def]
  simp [hq, hb]

/-- C7 counterexample: the population name backslash-quote contains a
double-quote character, yet its escaped literal lexes to a bare backslash
with an unconsumed quote left over — the constructed call is broken and the
name does not round-trip. -/
theorem escape_roundtrip_fails_on_backslash_quote :
    '"' ∈ ['\\', '"']
    ∧ rLexString (rStringLit ['\\', '"']) = some (['\\'], ['"'])
    ∧ rLexString (rStringLit ['\\', '"']) ≠ some (['\\', '"'], []) := by
  decide

/-- C7 amended: for every population name free of backslash characters —
in particular every such name containing a double-quote — the escaped
quoted literal lexes back to exactly the original name with no input left
over, so the constructed call is not broken and the name round-trips. -/
theorem escape_roundtrip_no_backslash (name : List Char)
    (h : '\\' ∉ name) :
    rLexString (rStringLit name) = some (name, []) := by
  show rScanBody (escapePop name ++ ['"']) = some (name, [])
  induction name with
  | nil => rfl
  | cons c cs ih =>
    have hb : c ≠ '\\' := fun hcc => h (hcc ▸ List.mem_cons_self c cs)
    have hcs : '\\' ∉ cs := fun hm => h (List.mem_cons_of_mem c hm)
    by_cases hq : c = '"'
    · subst hq
      show rScanBody ('\\' :: '"' :: (escapePop cs ++ ['"'])) = _
      rw [rScanBody_escaped_quote, ih hcs]
    · show rScanBody (escapePop (c :: cs) ++ ['"']) = _
      have e1 : escapePop (c :: cs) = c :: escapePop cs := by
        simp [escapePop, hq]
      rw [e1, List.cons_append, rScanBody_plain c _ hq hb, ih hcs]

/-- C7 witness: the amended round-trip theorem applied to a concrete name
containing a double-quote character. -/
theorem escape_roundtrip_no_backslash_witness :
    '\\' ∉ ['a', '"', 'b']
    ∧ rLexString (rStringLit ['a', '"', 'b']) = some (['a', '"', 'b'], []) :=
  ⟨by decide, escape_roundtrip_no_backslash ['a', '"', 'b'] (by decide)⟩

theorem splitComma_ne_nil (l : List Char) : splitComma l ≠ [] := by
  cases l with
  | nil => simp [splitComma]
  | cons c cs =>
    simp only [splitComma]
    split
    · simp
    · cases h : splitComma cs <;> simp

theorem mem_of_mem_splitComma {c : Char} {p l : List Char}
    (hp : p ∈ splitComma l) (hc : c ∈ p) : c ∈ l ∧ c ≠ ',' := by
  induction l generalizing p with
  | nil =>
    simp only [splitComma, List.mem_singleton] at hp
    subst hp
    exact absurd hc (List.not_mem_nil c)
  | cons d ds ih =>
    simp only [splitComma] at hp
    by_cases hd : d = ','
    · rw [if_pos hd] at hp
      rcases List.mem_cons.mp hp with hp | hp
      · subst hp
        exact absurd hc (List.not_mem_nil c)
      · have h2 := ih hp hc
        exact ⟨List.mem_cons_of_mem d h2.1, h2.2⟩
    · rw [if_neg hd] at hp
      cases hsp : splitComma ds with
      | nil => exact absurd hsp (splitComma_ne_nil ds)
      | cons q qs =>
        rw [hsp] at hp
        rcases List.mem_cons.mp hp with hp | hp
        · subst hp
          rcases List.mem_cons.mp hc with hc | hc
          · subst hc
            exact ⟨List.mem_cons_self c ds, hd⟩
          · have h2 := ih (show q ∈ splitComma ds by
                rw [hsp]; exact List.mem_cons_self q qs) hc
            exact ⟨List.mem_cons_of_mem d h2.1, h2.2⟩
        · have h2 := ih (show p ∈ splitComma ds by
              rw [hsp]; exact List.mem_cons_of_mem q hp) hc
          exact ⟨List.mem_cons_of_mem d h2.1, h2.2⟩

theorem mem_of_mem_pyStrip {c : Char} {l : List Char} (h : c ∈ pyStrip l) :
    c ∈ l := by
  unfold pyStrip at h
  rw [List.mem_reverse] at h
  have h2 : c ∈ (l.dropWhile Char.isWhitespace).reverse :=
    (List.dropWhile_sublist Char.isWhitespace).mem h
  rw [List.mem_reverse] at h2
  exact (List.dropWhile_sublist Char.isWhitespace).mem h2

theorem pyStrip_eq_nil_of_all_ws {l : List Char}
    (h : ∀ c ∈ l, c.isWhitespace = true) : pyStrip l = [] := by
  unfold pyStrip
  rw [List.dropWhile_eq_nil_iff.mpr h]
  rfl

/-- C9: a predefined-list population section consisting only of commas and
whitespace parses to a non-empty list whose elements are all empty, and a
run request built from that list is not rejected by the run-trigger
validation (provided environment, dataset handle, target and the other
list are present). -/
theorem empty_pops_section_passes_validation (popsStr : List Char)
    (h : ∀ c ∈ popsStr, c = ',' ∨ c.isWhitespace = true)
    (prefixPath : Option String) (target : String) (rightPops : List String)
    (est : Estimator) (hp : prefixMissing prefixPath = false)
    (ht : target ≠ "") (hr : rightPops ≠ []) :
    parsePops popsStr ≠ []
    ∧ (∀ p ∈ parsePops popsStr, p = [])
    ∧ (runAnalysis true prefixPath target
        ((parsePops popsStr).map List.asString) rightPops
        est).rejectedBeforeRun = false := by
  have hne : parsePops popsStr ≠ [] := by
    unfold parsePops
    intro hcon
    exact splitComma_ne_nil _ (List.map_eq_nil_iff.mp hcon)
  have hall : ∀ p ∈ parsePops popsStr, p = [] := by
    intro p hstrip
    unfold parsePops at hstrip
    obtain ⟨q, hq, rfl⟩ := List.mem_map.mp hstrip
    apply pyStrip_eq_nil_of_all_ws
    intro c hc
    have h2 := mem_of_mem_splitComma hq hc
    have h3 : c ∈ popsStr := mem_of_mem_pyStrip h2.1
    rcases h c h3 with hcc | hws
    · exact absurd hcc h2.2
    · exact hws
  refine ⟨hne, hall, ?_⟩
  apply runAnalysis_not_rejected _ _ _ _ _ hp ht _ hr
  intro hcon
  exact hne (List.map_eq_nil_iff.mp hcon)

/-- C9 witness: the theorem applied to the population section of the line
"name: , " (commas and whitespace only). -/
theorem empty_pops_section_passes_validation_witness :
    parsePops " , ".data ≠ []
    ∧ (runAnalysis true (some "dataset") "Target1"
        ((parsePops " , ".data).map List.asString) ["X"]
        sampleEstimator).rejectedBeforeRun = false :=
  ⟨(empty_pops_section_passes_validation " , ".data (by decide) (some "dataset")
      "Target1" ["X"] sampleEstimator rfl (by decide) (by decide)).1,
    (empty_pops_section_passes_validation " , ".data (by decide) (some "dataset")
      "Target1" ["X"] sampleEstimator rfl (by decide) (by decide)).2.2⟩

theorem append_right_injective (u : String) :
    Function.Injective (fun s : String => s ++ u) := by
  intro a b h
  have h2 : a.data ++ u.data = b.data ++ u.data := by
    have h3 := congrArg String.data h
    simpa [String.data_append] using h3
  have h4 := List.append_cancel_right h2
  cases a
  cases b
  exact congrArg String.mk h4

theorem append_suffix_ne (a b u v : String) (i : Nat)
    (hu : i < u.data.length) (hv : i < v.data.length)
    (hne : u.data.reverse[i]? ≠ v.data.reverse[i]?) :
    a ++ u ≠ b ++ v := by
  intro h
  apply hne
  have h2 : a.data ++ u.data = b.data ++ v.data := by
    have h3 := congrArg String.data h
    simpa [String.data_append] using h3
  have h3 : u.data.reverse ++ a.data.reverse = v.data.reverse ++ b.data.reverse := by
    have h4 := congrArg List.reverse h2
    simpa [List.reverse_append] using h4
  calc u.data.reverse[i]?
      = (u.data.reverse ++ a.data.reverse)[i]? :=
        (List.getElem?_append_left (by simpa using hu)).symm
    _ = (v.data.reverse ++ b.data.reverse)[i]? := by rw [h3]
    _ = v.data.reverse[i]? := List.getElem?_append_left (by simpa using hv)

theorem lit_ne_append (w s v : String) (i : Nat) (hw : i < w.data.length)
    (hv : i < v.data.length) (hne : w.data.reverse[i]? ≠ v.data.reverse[i]?) :
    w ≠ s ++ v := fun h =>
  append_suffix_ne "" s w v i hw hv hne h

theorem header_eq (weights : List WRow) (fit : FitRow) :
    (convert_df_to_csv weights fit).header
      = "target" :: ((sortDedup (weights.map (·.left))).map (· ++ "_weight")
          ++ (sortDedup (weights.map (·.left))).map (· ++ "_se")
          ++ (sortDedup (weights.map (·.left))).map (· ++ "_zscore")
          ++ ["p-value", "x2"]) := rfl

theorem pivotCell_eq_of_ne_nil (weights : List WRow) (t s : String)
    (f : WRow → ℚ) (h : cellValues weights t s f ≠ []) :
    pivotCell weights t s f
      = .num ((cellValues weights t s f).sum
          / ((cellValues weights t s f).length : ℚ)) := by
  unfold pivotCell
  cases hcv : cellValues weights t s f with
  | nil => exact absurd hcv h
  | cons q qs => rfl

/-- C2 counterexample: for a run with two sources A and B, the export
header groups the columns by metric — all weight columns, then all se
columns, then all zscore columns — and is not in the per-source
interleaved order the claim states. -/
theorem export_header_not_interleaved :
    (convert_df_to_csv
        [⟨"Target1", "A", 7, 1, some 7⟩, ⟨"Target1", "B", 3, 2, some 6⟩]
        ⟨1, 3⟩).header
      = ["target", "A_weight", "B_weight", "A_se", "B_se",
          "A_zscore", "B_zscore", "p-value", "x2"]
    ∧ (convert_df_to_csv
        [⟨"Target1", "A", 7, 1, some 7⟩, ⟨"Target1", "B", 3, 2, some 6⟩]
        ⟨1, 3⟩).header
      ≠ ["target", "A_weight", "A_se", "A_zscore", "B_weight", "B_se",
          "B_zscore", "p-value", "x2"] := by
  decide

/-- C2 amended: the export table has a header row and exactly one data row
per distinct target, with exactly 3×(number of distinct sources)+3 columns:
target first, then all weight columns, then all se columns, then all zscore
columns — the distinct source names sorted ascending within each group —
then p-value and x2. -/
theorem export_table_shape (weights : List WRow) (fit : FitRow) :
    ∃ lefts : List String,
      lefts.Nodup
      ∧ lefts.Sorted (· < ·)
      ∧ (∀ s, s ∈ lefts ↔ s ∈ weights.map (·.left))
      ∧ (convert_df_to_csv weights fit).header
          = "target" :: (lefts.map (· ++ "_weight") ++ lefts.map (· ++ "_se")
              ++ lefts.map (· ++ "_zscore") ++ ["p-value", "x2"])
      ∧ (convert_df_to_csv weights fit).header.length
          = 3 * (weights.map (·.left)).toFinset.card + 3
      ∧ (convert_df_to_csv weights fit).rows.length
          = (weights.map (·.target)).toFinset.card
      ∧ (∀ dr ∈ (convert_df_to_csv weights fit).rows,
          dr.length = 3 * (weights.map (·.left)).toFinset.card + 3)
      ∧ ∀ render : Cell → String,
          (csvLines (convert_df_to_csv weights fit) render).length
            = (convert_df_to_csv weights fit).rows.length + 1 := by
  refine ⟨sortDedup (weights.map (·.left)), nodup_sortDedup _, sorted_sortDedup _,
    fun s => mem_sortDedup s (weights.map (·.left)), header_eq weights fit,
    ?_, ?_, ?_, ?_⟩
  · rw [header_eq]
    simp only [List.length_cons, List.length_append, List.length_map,
      length_sortDedup, List.length_cons, List.length_nil]
    ring
  · show (List.map _ (sortDedup (weights.map (·.target)))).length = _
    rw [List.length_map, length_sortDedup]
  · intro dr hdr
    have hdr2 : dr ∈ (sortDedup (weights.map (·.target))).map (fun t =>
        Cell.str t :: ((sortDedup (weights.map (·.left))).map
            (fun s => pivotCell weights t s (·.weight))
          ++ (sortDedup (weights.map (·.left))).map
            (fun s => pivotCell weights t s (·.se))
          ++ (sortDedup (weights.map (·.left))).map
            (fun s => pivotCell weights t s (fun r => r.zscore.getD 0))
          ++ [Cell.num fit.p, Cell.num fit.chisq])) := hdr
    obtain ⟨t, _, rfl⟩ := List.mem_map.mp hdr2
    simp only [List.length_cons, List.length_append, List.length_map,
      length_sortDedup, List.length_nil]
    ring
  · intro render
    show (_ :: List.map _ _).length = _
    simp [csvLines]

theorem count_map_suffix_eq_zero (l : List String) (u v s : String)
    (hne : ∀ a : String, a ++ u ≠ s ++ v) :
    (l.map (· ++ u)).count (s ++ v) = 0 := by
  rw [List.count_eq_zero]
  intro hmem
  obtain ⟨a, _, ha⟩ := List.mem_map.mp hmem
  exact hne a ha

theorem count_lit_pair_eq_zero (w1 w2 v s : String) (h1 : w1 ≠ s ++ v)
    (h2 : w2 ≠ s ++ v) : List.count (s ++ v) [w1, w2] = 0 := by
  rw [List.count_eq_zero]
  intro hmem
  rcases List.mem_cons.mp hmem with h | h
  · exact h1 h.symm
  · rcases List.mem_cons.mp h with h3 | h3
    · exact h2 h3.symm
    · exact absurd h3 (List.not_mem_nil _)

/-- C10: when the derived weights rows repeat a (target, source) pair, the
export keeps a single column triple for that source — each of the three
suffixed column names occurs exactly once in the header — and the pivot
cell aggregates the duplicated rows by their arithmetic mean for weight,
se and zscore alike. -/
theorem duplicate_source_rows_averaged (weights : List WRow) (fit : FitRow)
    (t s : String)
    (hdup : 2 ≤ (weights.filter (fun r => r.target = t ∧ r.left = s)).length) :
    (convert_df_to_csv weights fit).header.count (s ++ "_weight") = 1
    ∧ (convert_df_to_csv weights fit).header.count (s ++ "_se") = 1
    ∧ (convert_df_to_csv weights fit).header.count (s ++ "_zscore") = 1
    ∧ pivotCell weights t s (·.weight)
        = .num ((cellValues weights t s (·.weight)).sum
            / ((weights.filter (fun r => r.target = t ∧ r.left = s)).length : ℚ))
    ∧ pivotCell weights t s (·.se)
        = .num ((cellValues weights t s (·.se)).sum
            / ((weights.filter (fun r => r.target = t ∧ r.left = s)).length : ℚ))
    ∧ pivotCell weights t s (fun r => r.zscore.getD 0)
        = .num ((cellValues weights t s (fun r => r.zscore.getD 0)).sum
            / ((weights.filter (fun r => r.target = t ∧ r.left = s)).length : ℚ)) := by
  have hmem_s : s ∈ weights.map (·.left) := by
    have hpos : 0 < (weights.filter (fun r => r.target = t ∧ r.left = s)).length := by
      omega
    obtain ⟨r, hr⟩ := List.exists_mem_of_length_pos hpos
    have hr2 := List.mem_filter.mp hr
    have hr3 : r.target = t ∧ r.left = s := of_decide_eq_true hr2.2
    exact List.mem_map.mpr ⟨r, hr2.1, hr3.2⟩
  have hmemL : s ∈ sortDedup (weights.map (·.left)) :=
    (mem_sortDedup s (weights.map (·.left))).mpr hmem_s
  have hcount1 : (sortDedup (weights.map (·.left))).count s = 1 :=
    List.count_eq_one_of_mem (nodup_sortDedup (weights.map (·.left))) hmemL
  have hpc : ∀ f : WRow → ℚ,
      pivotCell weights t s f
        = .num ((cellValues weights t s f).sum
            / ((weights.filter (fun r => r.target = t ∧ r.left = s)).length : ℚ)) := by
    intro f
    have hne : cellValues weights t s f ≠ [] := by
      unfold cellValues
      simp only [ne_eq, List.map_eq_nil_iff]
      intro hcon
      rw [hcon] at hdup
      simp at hdup
    rw [pivotCell_eq_of_ne_nil weights t s f hne]
    simp [cellValues]
  have hW1 : ((sortDedup (weights.map (·.left))).map (· ++ "_weight")).count
      (s ++ "_weight") = 1 := by
    have h2 := List.count_map_of_injective (sortDedup (weights.map (·.left)))
      (fun x => x ++ "_weight") (append_right_injective "_weight") s
    simpa [hcount1] using h2
  have hS1 : ((sortDedup (weights.map (·.left))).map (· ++ "_se")).count
      (s ++ "_se") = 1 := by
    have h2 := List.count_map_of_injective (sortDedup (weights.map (·.left)))
      (fun x => x ++ "_se") (append_right_injective "_se") s
    simpa [hcount1] using h2
  have hZ1 : ((sortDedup (weights.map (·.left))).map (· ++ "_zscore")).count
      (s ++ "_zscore") = 1 := by
    have h2 := List.count_map_of_injective (sortDedup (weights.map (·.left)))
      (fun x => x ++ "_zscore") (append_right_injective "_zscore") s
    simpa [hcount1] using h2
  refine ⟨?_, ?_, ?_, hpc (·.weight), hpc (·.se), hpc (fun r => r.zscore.getD 0)⟩
  · rw [header_eq, List.count_cons, List.count_append, List.count_append,
      List.count_append, hW1,
      count_map_suffix_eq_zero _ "_se" "_weight" s
        (fun a => append_suffix_ne a s "_se" "_weight" 0 (by decide) (by decide)
          (by decide)),
      count_map_suffix_eq_zero _ "_zscore" "_weight" s
        (fun a => append_suffix_ne a s "_zscore" "_weight" 0 (by decide)
          (by decide) (by decide)),
      count_lit_pair_eq_zero "p-value" "x2" "_weight" s
        (lit_ne_append "p-value" s "_weight" 0 (by decide) (by decide) (by decide))
        (lit_ne_append "x2" s "_weight" 0 (by decide) (by decide) (by decide))]
    have htgt : ¬ ("target" = s ++ "_weight") :=
      lit_ne_append "target" s "_weight" 1 (by decide) (by decide) (by decide)
    simp [htgt]
  · rw [header_eq, List.count_cons, List.count_append, List.count_append,
      List.count_append, hS1,
      count_map_suffix_eq_zero _ "_weight" "_se" s
        (fun a => append_suffix_ne a s "_weight" "_se" 0 (by decide) (by decide)
          (by decide)),
      count_map_suffix_eq_zero _ "_zscore" "_se" s
        (fun a => append_suffix_ne a s "_zscore" "_se" 1 (by decide) (by decide)
          (by decide)),
      count_lit_pair_eq_zero "p-value" "x2" "_se" s
        (lit_ne_append "p-value" s "_se" 1 (by decide) (by decide) (by decide))
        (lit_ne_append "x2" s "_se" 0 (by decide) (by decide) (by decide))]
    have htgt : ¬ ("target" = s ++ "_se") :=
      lit_ne_append "target" s "_se" 0 (by decide) (by decide) (by decide)
    simp [htgt]
  · rw [header_eq, List.count_cons, List.count_append, List.count_append,
      List.count_append, hZ1,
      count_map_suffix_eq_zero _ "_weight" "_zscore" s
        (fun a => append_suffix_ne a s "_weight" "_zscore" 0 (by decide)
          (by decide) (by decide)),
      count_map_suffix_eq_zero _ "_se" "_zscore" s
        (fun a => append_suffix_ne a s "_se" "_zscore" 1 (by decide) (by decide)
          (by decide)),
      count_lit_pair_eq_zero "p-value" "x2" "_zscore" s
        (lit_ne_append "p-value" s "_zscore" 1 (by decide) (by decide) (by decide))
        (lit_ne_append "x2" s "_zscore" 0 (by decide) (by decide) (by decide))]
    have htgt : ¬ ("target" = s ++ "_zscore") :=
      lit_ne_append "target" s "_zscore" 0 (by decide) (by decide) (by decide)
    simp [htgt]

/-- C10 witness: the duplicate-aggregation theorem applied to a table that
repeats the pair (T, A). -/
theorem duplicate_source_rows_averaged_witness :
    (convert_df_to_csv dupRows ⟨1, 3⟩).header.count ("A" ++ "_weight") = 1
    ∧ (convert_df_to_csv dupRows ⟨1, 3⟩).header.count ("A" ++ "_se") = 1
    ∧ (convert_df_to_csv dupRows ⟨1, 3⟩).header.count ("A" ++ "_zscore") = 1
    ∧ pivotCell dupRows "T" "A" (·.weight)
        = .num ((cellValues dupRows "T" "A" (·.weight)).sum
            / ((dupRows.filter (fun r => r.target = "T" ∧ r.left = "A")).length : ℚ))
    ∧ pivotCell dupRows "T" "A" (·.se)
        = .num ((cellValues dupRows "T" "A" (·.se)).sum
            / ((dupRows.filter (fun r => r.target = "T" ∧ r.left = "A")).length : ℚ))
    ∧ pivotCell dupRows "T" "A" (fun r => r.zscore.getD 0)
        = .num ((cellValues dupRows "T" "A" (fun r => r.zscore.getD 0)).sum
            / ((dupRows.filter (fun r => r.target = "T" ∧ r.left = "A")).length : ℚ)) :=
  duplicate_source_rows_averaged dupRows ⟨1, 3⟩ "T" "A" (by decide)

end QpAdmGui

